import Mathlib

/-!
# Verification of the sentiment-analysis pipeline

Shallow embedding of the computational core of the repository
(`sentiment_analyzer.py`, plus the metrics summary of `visualizations.py`
and the record-preparation glue of `app.py`), together with proofs of the
specification's claims about it.

Conventions of the embedding:
* Python floats are modelled as rationals (`ℚ`).
* A Python value that may be a non-string (a dynamically typed `text`
  field of a record) is modelled by `PyVal`.
* A Python function that may raise is modelled with `Except PyErr`;
  a `try/except LookupError` block is modelled by a `match` on the
  `Except` value of the guarded call.
* The external NLTK resources (the English stop-word corpus and the punkt
  tokenizer) are parameters (`NLPEnv`): `none` models the resource being
  absent, in which case the corresponding lookup raises `LookupError`.
* The external TextBlob polarity/subjectivity model is a parameter
  (`ScoreModel`).
-/

/-- A dynamically typed Python value, as far as the pipeline inspects one:
a string, an integer, or `None`.  Used for the `text` field of a batch
record, which the code reads without any type check. -/
inductive PyVal where
  | str (s : String)
  | intv (n : Int)
  | nonev
deriving DecidableEq

/-- Python `str(v)`: identity on strings, decimal rendering of integers,
`"None"` for `None`. -/
def pyStr : PyVal → String
  | .str s => s
  | .intv n => toString n
  | .nonev => "None"

/-- Whether a `PyVal` is a string. -/
def isStrB : PyVal → Bool
  | .str _ => true
  | _ => false

/-- The exceptions the embedded code can raise: `LookupError` from a
missing NLTK resource, and the `TypeError` raised when a non-string text
reaches `TextBlob(text)` / `text.lower()`. -/
inductive PyErr where
  | lookupError
  | typeError
deriving DecidableEq

/-- Python `text.lower()` (basic-latin case folding, applied to every
character). -/
def pyLower (s : String) : String :=
  ⟨s.data.map Char.toLower⟩

/-- Helper for `pySplit`: walks the character list, accumulating the
current (reversed) word in `acc` and emitting it at each whitespace run
boundary. -/
def pySplitAux : List Char → List Char → List String
  | [], acc => if acc.isEmpty then [] else [⟨acc.reverse⟩]
  | c :: cs, acc =>
    if c.isWhitespace then
      if acc.isEmpty then pySplitAux cs [] else ⟨acc.reverse⟩ :: pySplitAux cs []
    else pySplitAux cs (c :: acc)

/-- Python `s.split()` with no argument: split on runs of whitespace,
discarding empty pieces. -/
def pySplit (s : String) : List String :=
  pySplitAux s.data []

/-- Python `word.isalpha()`: non-empty and every character alphabetic. -/
def pyIsAlpha (s : String) : Bool :=
  !s.data.isEmpty && s.data.all Char.isAlpha

/-- No character of the string is an upper-case letter (the formal sense
in which a string is "entirely lower-case"). -/
def noUpper (s : String) : Bool :=
  s.data.all (fun c => !c.isUpper)

/-- The hard-coded fallback stop-word list of `extract_keywords`
(sentiment_analyzer.py line 41), used when the NLTK corpus is missing. -/
def fallback_stop_words : List String :=
  ["the", "a", "an", "and", "or", "but", "in", "on", "at", "to", "for",
   "of", "with", "by", "is", "are", "was", "were", "be", "been", "being",
   "have", "has", "had", "do", "does", "did", "will", "would", "could",
   "should", "may", "might", "must", "can", "this", "that", "these",
   "those", "i", "you", "he", "she", "it", "we", "they", "me", "him",
   "her", "us", "them"]

/-- The external NLTK resources.  `stopwordsData` is the English
stop-word corpus (`none` = corpus missing, lookup raises);
`tokenizerData` is the punkt word tokenizer (`none` = tokenizer missing,
lookup raises). -/
structure NLPEnv where
  stopwordsData : Option (List String)
  tokenizerData : Option (String → List String)

/-- `stopwords.words('english')`: returns the corpus, or raises
`LookupError` when the NLTK data is not available. -/
def stopwords_words (env : NLPEnv) : Except PyErr (List String) :=
  match env.stopwordsData with
  | some ws => .ok ws
  | none => .error .lookupError

/-- `word_tokenize(s)`: tokenizes with the external tokenizer, or raises
`LookupError` when the NLTK data is not available. -/
def word_tokenize (env : NLPEnv) (s : String) : Except PyErr (List String) :=
  match env.tokenizerData with
  | some f => .ok (f s)
  | none => .error .lookupError

/-- The stop-word set actually used by `extract_keywords`: the body of
`try: stop_words = set(stopwords.words('english')) except LookupError:`
(sentiment_analyzer.py lines 37-41). -/
def stopwordsOf (env : NLPEnv) : List String :=
  match stopwords_words env with
  | .ok ws => ws
  | .error _ => fallback_stop_words

/-- The token list actually used by `extract_keywords`: the body of
`try: word_tokens = word_tokenize(text.lower()) except LookupError:`
with fallback `text.lower().split()` (sentiment_analyzer.py lines 43-47). -/
def tokensOf (env : NLPEnv) (text : String) : List String :=
  match word_tokenize env (pyLower text) with
  | .ok ts => ts
  | .error _ => pySplit (pyLower text)

/-- `[word for word in word_tokens if word.isalpha() and word not in stop_words]`
(sentiment_analyzer.py line 50). -/
def filtered_words (stop_words word_tokens : List String) : List String :=
  word_tokens.filter (fun word => pyIsAlpha word && !(decide (word ∈ stop_words)))

/-- Helper for `counterKeys`: the distinct elements of the list in
first-occurrence order, skipping those already in `seen`. -/
def counterKeysAux (seen : List String) : List String → List String
  | [] => []
  | w :: ws =>
    if w ∈ seen then counterKeysAux seen ws
    else w :: counterKeysAux (w :: seen) ws

/-- The keys of `Counter(ws)` in iteration order, i.e. the distinct
elements of `ws` in order of first occurrence (Python dicts preserve
insertion order). -/
def counterKeys (ws : List String) : List String :=
  counterKeysAux [] ws

/-- The items of `Counter(ws)`: each distinct word, in first-occurrence
order, paired with its number of occurrences. -/
def counter_items (ws : List String) : List (String × Nat) :=
  (counterKeys ws).map (fun w => (w, ws.count w))

/-- Insert a pair into a descending-by-count list, after every element of
count ≥ its own.  Building a list with this from the left is the stable
descending sort by count that `Counter.most_common` performs (documented
as `sorted(items, key=itemgetter(1), reverse=True)`, a stable sort). -/
def insertTail (p : String × Nat) : List (String × Nat) → List (String × Nat)
  | [] => [p]
  | q :: qs => if p.2 ≤ q.2 then q :: insertTail p qs else p :: q :: qs

/-- Stable sort, descending by count. -/
def sortDesc (l : List (String × Nat)) : List (String × Nat) :=
  l.foldl (fun acc p => insertTail p acc) []

/-- `Counter(ws).most_common(n)`: the `n` highest-count (word, count)
items, counts descending, ties in first-occurrence order. -/
def most_common (ws : List String) (n : Nat) : List (String × Nat) :=
  (sortDesc (counter_items ws)).take n

/-- The body of `extract_keywords` after the stop-word set and the token
list have been obtained (sentiment_analyzer.py lines 49-58):
filter, count, take the most common, return the words. -/
def extract_core (stop_words word_tokens : List String) (num_keywords : Nat) :
    List String :=
  (most_common (filtered_words stop_words word_tokens) num_keywords).map Prod.fst

/-- The keyword list `extract_keywords(text, num_keywords)` returns under
resources `env`. -/
def extract_run (env : NLPEnv) (text : String) (num_keywords : Nat) : List String :=
  extract_core (stopwordsOf env) (tokensOf env text) num_keywords

/-- `extract_keywords(text, num_keywords)` (sentiment_analyzer.py lines
36-58).  The `Except` result type records that the NLTK lookups inside
can raise; both raises are caught by the function's `try/except` blocks
(`stopwordsOf` / `tokensOf`), so the result is always `ok`. -/
def extract_keywords (env : NLPEnv) (text : String) (num_keywords : Nat) :
    Except PyErr (List String) :=
  .ok (extract_run env text num_keywords)

/-- The environment in which both NLTK resources are missing, so both
fallbacks are exercised. -/
def envFB : NLPEnv := ⟨none, none⟩

/-- "First index" of a word in a list: the index of its first occurrence
(the length of the list if absent). -/
def firstIdx (w : String) : List String → Nat
  | [] => 0
  | x :: xs => if x = w then 0 else firstIdx w xs + 1

/-- Python `abs` on a rational (the model of `abs(polarity)` on a float). -/
def pyAbs (q : ℚ) : ℚ :=
  if q < 0 then -q else q

/-- The external TextBlob sentiment model: `TextBlob(text).sentiment`
yields a polarity and a subjectivity for each text. -/
structure ScoreModel where
  polarity : String → ℚ
  subjectivity : String → ℚ

/-- The tuple `(sentiment, confidence, polarity, subjectivity)` returned
by `analyze_sentiment_textblob`. -/
structure TBSentiment where
  sentiment : String
  confidence : ℚ
  polarity : ℚ
  subjectivity : ℚ
deriving DecidableEq

/-- `analyze_sentiment_textblob(text)` (sentiment_analyzer.py lines
16-34), with the TextBlob model abstracted as `m`. -/
def analyze_sentiment_textblob (m : ScoreModel) (text : String) : TBSentiment :=
  let polarity := m.polarity text
  let subjectivity := m.subjectivity text
  let sentiment :=
    if polarity > 0 then "Positive"
    else if polarity < 0 then "Negative"
    else "Neutral"
  let confidence := pyAbs polarity
  ⟨sentiment, confidence, polarity, subjectivity⟩

/-- One input record of `batch_analyze_sentiment`: the dict
`{'text': ..., 'source': ..., 'date': ...}` where `source`/`date` may be
absent (`text_item.get` is used for them) and `text` is read with
`text_item['text']`, untyped. -/
structure BatchRecord where
  text : PyVal
  source : Option String
  date : Option String
deriving DecidableEq

/-- One cell of a result row. -/
inductive Cell where
  | str (s : String)
  | rat (q : ℚ)
  | strList (ws : List String)
deriving DecidableEq

/-- One result row: the dict literal of sentiment_analyzer.py lines
65-74, as an ordered association list (Python dicts preserve insertion
order, and `pd.DataFrame` takes its columns from these keys). -/
def Row : Type := List (String × Cell)

instance : DecidableEq Row := inferInstanceAs (DecidableEq (List (String × Cell)))

/-- `batch_analyze_sentiment(texts)` (sentiment_analyzer.py lines 60-75).
Processes the records in order; on each, `analyze_sentiment_textblob`
receives `text_item['text']` with no coercion, so a non-string text
raises (`TypeError` from `TextBlob(text)`, resp. no `.lower()` on the
value) and aborts the whole loop. -/
def batch_analyze_sentiment (m : ScoreModel) (env : NLPEnv) :
    List BatchRecord → Except PyErr (List Row)
  | [] => .ok []
  | item :: rest =>
    match item.text with
    | .str s =>
      let tb := analyze_sentiment_textblob m s
      match extract_keywords env s 5 with
      | .error e => .error e
      | .ok keywords =>
        match batch_analyze_sentiment m env rest with
        | .error e => .error e
        | .ok rows =>
          .ok ([("text", Cell.str s),
                ("sentiment", Cell.str tb.sentiment),
                ("confidence", Cell.rat tb.confidence),
                ("polarity", Cell.rat tb.polarity),
                ("subjectivity", Cell.rat tb.subjectivity),
                ("keywords", Cell.strList keywords),
                ("source", Cell.str (item.source.getD "N/A")),
                ("date", Cell.str (item.date.getD "N/A"))] :: rows)
    | _ => .error .typeError

/-- The coercion the app applies to each record before calling
`batch_analyze_sentiment`: `'text': str(row['text'])` (app.py line 251,
likewise line 309); `source`/`date` handling is unchanged here. -/
def str_coerce (r : BatchRecord) : BatchRecord :=
  ⟨.str (pyStr r.text), r.source, r.date⟩

/-- The columns a result-table row of `create_sentiment_metrics_summary`'s
input carries that the function reads. -/
structure SRow where
  sentiment : String
  confidence : ℚ
  polarity : ℚ
  subjectivity : ℚ
deriving DecidableEq

/-- `create_sentiment_metrics_summary(df)` (visualizations.py lines
270-304), the result dict as an ordered association list with rational
values.  The input table is a list of rows, each carrying the columns the
function reads (they are always present on the dashboard's result
table). -/
def create_sentiment_metrics_summary (df : List SRow) : List (String × ℚ) :=
  if df.isEmpty then []
  else
    let total_texts : ℚ := df.length
    let positive_count : ℚ := (df.filter (fun r => r.sentiment == "Positive")).length
    let negative_count : ℚ := (df.filter (fun r => r.sentiment == "Negative")).length
    let neutral_count : ℚ := (df.filter (fun r => r.sentiment == "Neutral")).length
    let positive_pct := if total_texts > 0 then positive_count / total_texts * 100 else 0
    let negative_pct := if total_texts > 0 then negative_count / total_texts * 100 else 0
    let neutral_pct := if total_texts > 0 then neutral_count / total_texts * 100 else 0
    let avg_confidence := (df.map SRow.confidence).sum / total_texts
    let avg_polarity := (df.map SRow.polarity).sum / total_texts
    let avg_subjectivity := (df.map SRow.subjectivity).sum / total_texts
    [("total_texts", total_texts),
     ("positive_count", positive_count),
     ("negative_count", negative_count),
     ("neutral_count", neutral_count),
     ("positive_pct", positive_pct),
     ("negative_pct", negative_pct),
     ("neutral_pct", neutral_pct),
     ("avg_confidence", avg_confidence),
     ("avg_polarity", avg_polarity),
     ("avg_subjectivity", avg_subjectivity)]

/-- A concrete score model for witnesses: polarity and subjectivity 0. -/
def zeroModel : ScoreModel := ⟨fun _ => 0, fun _ => 0⟩

/-- A concrete score model for witnesses: polarity 1/2, subjectivity 1/2. -/
def halfModel : ScoreModel := ⟨fun _ => 1/2, fun _ => 1/2⟩

deriving instance DecidableEq for Except

theorem pyAbs_eq_abs (q : ℚ) : pyAbs q = |q| := by
  unfold pyAbs
  rcases lt_trichotomy q 0 with h | h | h
  · rw [if_pos h, abs_of_neg h]
  · simp [h]
  · rw [if_neg (not_lt.mpr h.le), abs_of_pos h]

theorem firstIdx_cons_self (w : String) (xs : List String) :
    firstIdx w (w :: xs) = 0 := by
  simp [firstIdx]

theorem firstIdx_cons_ne {w x : String} (xs : List String) (h : x ≠ w) :
    firstIdx w (x :: xs) = firstIdx w xs + 1 := by
  simp [firstIdx, h]

theorem mem_counterKeysAux :
    ∀ (l seen : List String) (a : String),
      a ∈ counterKeysAux seen l → a ∈ l ∧ a ∉ seen := by
  intro l
  induction l with
  | nil => intro seen a h; simp [counterKeysAux] at h
  | cons w ws ih =>
    intro seen a h
    by_cases hw : w ∈ seen
    · rw [counterKeysAux, if_pos hw] at h
      obtain ⟨h1, h2⟩ := ih seen a h
      exact ⟨List.mem_cons_of_mem _ h1, h2⟩
    · rw [counterKeysAux, if_neg hw] at h
      rcases List.mem_cons.mp h with rfl | h
      · exact ⟨List.mem_cons_self _ _, hw⟩
      · obtain ⟨h1, h2⟩ := ih (w :: seen) a h
        exact ⟨List.mem_cons_of_mem _ h1,
          fun hs => h2 (List.mem_cons_of_mem _ hs)⟩

theorem mem_counterKeysAux_of :
    ∀ (l seen : List String) (a : String),
      a ∈ l → a ∉ seen → a ∈ counterKeysAux seen l := by
  intro l
  induction l with
  | nil => intro seen a h; simp at h
  | cons w ws ih =>
    intro seen a ha hs
    by_cases haw : a = w
    · subst haw
      rw [counterKeysAux, if_neg hs]
      exact List.mem_cons_self _ _
    · have ha' : a ∈ ws := by
        rcases List.mem_cons.mp ha with rfl | h
        · exact absurd rfl haw
        · exact h
      by_cases hw : w ∈ seen
      · rw [counterKeysAux, if_pos hw]
        exact ih seen a ha' hs
      · rw [counterKeysAux, if_neg hw]
        refine List.mem_cons_of_mem _ (ih (w :: seen) a ha' ?_)
        intro hmem
        rcases List.mem_cons.mp hmem with rfl | h
        · exact haw rfl
        · exact hs h

theorem counterKeysAux_nodup :
    ∀ (l seen : List String), (counterKeysAux seen l).Nodup := by
  intro l
  induction l with
  | nil => intro seen; simp [counterKeysAux]
  | cons w ws ih =>
    intro seen
    by_cases hw : w ∈ seen
    · rw [counterKeysAux, if_pos hw]; exact ih seen
    · rw [counterKeysAux, if_neg hw]
      refine List.nodup_cons.mpr ⟨?_, ih (w :: seen)⟩
      intro hmem
      exact (mem_counterKeysAux ws (w :: seen) w hmem).2 (List.mem_cons_self _ _)

theorem counterKeysAux_pairwise :
    ∀ (l seen : List String),
      (counterKeysAux seen l).Pairwise (fun a b => firstIdx a l < firstIdx b l) := by
  intro l
  induction l with
  | nil => intro seen; simp [counterKeysAux]
  | cons w ws ih =>
    intro seen
    by_cases hw : w ∈ seen
    · rw [counterKeysAux, if_pos hw]
      refine (ih seen).imp_of_mem ?_
      intro a b ha hb hab
      have ha' := mem_counterKeysAux ws seen a ha
      have hb' := mem_counterKeysAux ws seen b hb
      have haw : w ≠ a := fun h => ha'.2 (h ▸ hw)
      have hbw : w ≠ b := fun h => hb'.2 (h ▸ hw)
      rw [firstIdx_cons_ne _ haw, firstIdx_cons_ne _ hbw]
      omega
    · rw [counterKeysAux, if_neg hw]
      refine List.pairwise_cons.mpr ⟨?_, ?_⟩
      · intro b hb
        have hb' := mem_counterKeysAux ws (w :: seen) b hb
        have hbw : w ≠ b := fun h => hb'.2 (h ▸ List.mem_cons_self _ _)
        rw [firstIdx_cons_self, firstIdx_cons_ne _ hbw]
        omega
      · refine (ih (w :: seen)).imp_of_mem ?_
        intro a b ha hb hab
        have ha' := mem_counterKeysAux ws (w :: seen) a ha
        have hb' := mem_counterKeysAux ws (w :: seen) b hb
        have haw : w ≠ a := fun h => ha'.2 (h ▸ List.mem_cons_self _ _)
        have hbw : w ≠ b := fun h => hb'.2 (h ▸ List.mem_cons_self _ _)
        rw [firstIdx_cons_ne _ haw, firstIdx_cons_ne _ hbw]
        omega

theorem mem_counterKeys {a : String} {ws : List String} :
    a ∈ counterKeys ws ↔ a ∈ ws :=
  ⟨fun h => (mem_counterKeysAux ws [] a h).1,
   fun h => mem_counterKeysAux_of ws [] a h (by simp)⟩

theorem counterKeys_nodup (ws : List String) : (counterKeys ws).Nodup :=
  counterKeysAux_nodup ws []

theorem counterKeys_length (ws : List String) :
    (counterKeys ws).length = ws.toFinset.card := by
  have hset : (counterKeys ws).toFinset = ws.toFinset := by
    ext a
    simp [List.mem_toFinset, mem_counterKeys]
  rw [← hset, List.toFinset_card_of_nodup (counterKeys_nodup ws)]

theorem mem_insertTail {p r : String × Nat} :
    ∀ {l : List (String × Nat)}, r ∈ insertTail p l → r = p ∨ r ∈ l := by
  intro l
  induction l with
  | nil => intro h; simpa [insertTail] using h
  | cons q qs ih =>
    intro h
    rw [insertTail] at h
    by_cases hpq : p.2 ≤ q.2
    · rw [if_pos hpq] at h
      rcases List.mem_cons.mp h with rfl | h
      · exact Or.inr (List.mem_cons_self _ _)
      · rcases ih h with h | h
        · exact Or.inl h
        · exact Or.inr (List.mem_cons_of_mem _ h)
    · rw [if_neg hpq] at h
      rcases List.mem_cons.mp h with rfl | h
      · exact Or.inl rfl
      · exact Or.inr h

theorem insertTail_perm (p : String × Nat) :
    ∀ l : List (String × Nat), List.Perm (insertTail p l) (p :: l) := by
  intro l
  induction l with
  | nil => simp [insertTail]
  | cons q qs ih =>
    rw [insertTail]
    by_cases hpq : p.2 ≤ q.2
    · rw [if_pos hpq]
      exact (ih.cons q).trans (List.Perm.swap p q qs)
    · rw [if_neg hpq]

theorem sortDesc_aux_perm :
    ∀ (l acc : List (String × Nat)),
      List.Perm (l.foldl (fun a p => insertTail p a) acc) (acc ++ l) := by
  intro l
  induction l with
  | nil => intro acc; simp
  | cons p ps ih =>
    intro acc
    have h1 := ih (insertTail p acc)
    have h2 : List.Perm (insertTail p acc ++ ps) ((p :: acc) ++ ps) :=
      (insertTail_perm p acc).append_right ps
    have h3 : List.Perm (p :: (acc ++ ps)) (acc ++ p :: ps) :=
      List.perm_middle.symm
    exact (h1.trans h2).trans h3

theorem sortDesc_perm (l : List (String × Nat)) :
    List.Perm (sortDesc l) l := by
  simpa using sortDesc_aux_perm l []

theorem insertTail_pairwise {S : String × Nat → String × Nat → Prop}
    (p : String × Nat) :
    ∀ l : List (String × Nat),
      l.Pairwise (fun x y => y.2 < x.2 ∨ (x.2 = y.2 ∧ S x y)) →
      (∀ q ∈ l, S q p) →
      (insertTail p l).Pairwise (fun x y => y.2 < x.2 ∨ (x.2 = y.2 ∧ S x y)) := by
  intro l
  induction l with
  | nil => intro _ _; simp [insertTail]
  | cons q qs ih =>
    intro hl hS
    rw [insertTail]
    by_cases hpq : p.2 ≤ q.2
    · rw [if_pos hpq]
      rcases List.pairwise_cons.mp hl with ⟨hq, hqs⟩
      refine List.pairwise_cons.mpr ⟨?_, ?_⟩
      · intro r hr
        rcases mem_insertTail hr with rfl | hr
        · rcases lt_or_eq_of_le hpq with h | h
          · exact Or.inl h
          · exact Or.inr ⟨h.symm, hS q (List.mem_cons_self _ _)⟩
        · exact hq r hr
      · exact ih hqs (fun r hr => hS r (List.mem_cons_of_mem _ hr))
    · rw [if_neg hpq]
      rcases List.pairwise_cons.mp hl with ⟨hq, _⟩
      refine List.pairwise_cons.mpr ⟨?_, hl⟩
      intro r hr
      rcases List.mem_cons.mp hr with rfl | hr
      · exact Or.inl (not_le.mp hpq)
      · have : r.2 ≤ q.2 := by
          rcases hq r hr with h | h
          · exact le_of_lt h
          · exact le_of_eq h.1.symm
        exact Or.inl (lt_of_le_of_lt this (not_le.mp hpq))

theorem sortDesc_aux_pairwise {S : String × Nat → String × Nat → Prop} :
    ∀ (l acc : List (String × Nat)),
      acc.Pairwise (fun x y => y.2 < x.2 ∨ (x.2 = y.2 ∧ S x y)) →
      (∀ q ∈ acc, ∀ x ∈ l, S q x) →
      l.Pairwise S →
      (l.foldl (fun a p => insertTail p a) acc).Pairwise
        (fun x y => y.2 < x.2 ∨ (x.2 = y.2 ∧ S x y)) := by
  intro l
  induction l with
  | nil => intro acc hacc _ _; simpa using hacc
  | cons p ps ih =>
    intro acc hacc hcross hl
    rcases List.pairwise_cons.mp hl with ⟨hp, hps⟩
    refine ih (insertTail p acc) ?_ ?_ hps
    · exact insertTail_pairwise p acc hacc
        (fun q hq => hcross q hq p (List.mem_cons_self _ _))
    · intro q hq x hx
      rcases mem_insertTail hq with rfl | hq
      · exact hp x hx
      · exact hcross q hq x (List.mem_cons_of_mem _ hx)

theorem sortDesc_pairwise {S : String × Nat → String × Nat → Prop}
    (l : List (String × Nat)) (hl : l.Pairwise S) :
    (sortDesc l).Pairwise (fun x y => y.2 < x.2 ∨ (x.2 = y.2 ∧ S x y)) :=
  sortDesc_aux_pairwise l [] (by simp) (by simp) hl

theorem counter_items_pairwise (ws : List String) :
    (counter_items ws).Pairwise
      (fun x y => firstIdx x.1 ws < firstIdx y.1 ws) := by
  unfold counter_items
  rw [List.pairwise_map]
  exact counterKeysAux_pairwise ws []

theorem mem_counter_items {p : String × Nat} {ws : List String}
    (h : p ∈ counter_items ws) : p.1 ∈ ws ∧ p.2 = ws.count p.1 := by
  unfold counter_items at h
  rcases List.mem_map.mp h with ⟨w, hw, rfl⟩
  exact ⟨mem_counterKeys.mp hw, rfl⟩

theorem counter_items_length (ws : List String) :
    (counter_items ws).length = ws.toFinset.card := by
  unfold counter_items
  rw [List.length_map, counterKeys_length]

theorem counter_items_map_fst (ws : List String) :
    (counter_items ws).map Prod.fst = counterKeys ws := by
  unfold counter_items
  rw [List.map_map]
  exact List.map_id _

theorem most_common_length (ws : List String) (n : Nat) :
    (most_common ws n).length = min n ws.toFinset.card := by
  unfold most_common
  rw [List.length_take, (sortDesc_perm _).length_eq, counter_items_length]

theorem mem_most_common {p : String × Nat} {ws : List String} {n : Nat}
    (h : p ∈ most_common ws n) : p.1 ∈ ws ∧ p.2 = ws.count p.1 := by
  unfold most_common at h
  have h1 : p ∈ sortDesc (counter_items ws) := (List.take_subset _ _) h
  exact mem_counter_items ((sortDesc_perm _).mem_iff.mp h1)

theorem most_common_pairwise (ws : List String) (n : Nat) :
    (most_common ws n).Pairwise
      (fun x y => y.2 < x.2 ∨ (x.2 = y.2 ∧ firstIdx x.1 ws < firstIdx y.1 ws)) :=
  List.Pairwise.sublist (List.take_sublist _ _)
    (sortDesc_pairwise _ (counter_items_pairwise ws))

theorem most_common_nodup_fst (ws : List String) (n : Nat) :
    ((most_common ws n).map Prod.fst).Nodup := by
  unfold most_common
  rw [List.map_take]
  have hperm : List.Perm ((sortDesc (counter_items ws)).map Prod.fst)
      ((counter_items ws).map Prod.fst) := (sortDesc_perm _).map _
  have hnd : ((sortDesc (counter_items ws)).map Prod.fst).Nodup := by
    refine hperm.nodup_iff.mpr ?_
    rw [counter_items_map_fst]
    exact counterKeys_nodup ws
  exact hnd.sublist (List.take_sublist _ _)

theorem mem_filtered_words {stop toks : List String} {w : String}
    (h : w ∈ filtered_words stop toks) :
    w ∈ toks ∧ pyIsAlpha w = true ∧ w ∉ stop := by
  unfold filtered_words at h
  rw [List.mem_filter] at h
  refine ⟨h.1, ?_, ?_⟩
  · exact (Bool.and_eq_true_iff.mp h.2).1
  · have h2 := (Bool.and_eq_true_iff.mp h.2).2
    simpa using h2

theorem extract_core_length (stop toks : List String) (k : Nat) :
    (extract_core stop toks k).length =
      min k (filtered_words stop toks).toFinset.card := by
  unfold extract_core
  rw [List.length_map, most_common_length]

theorem extract_core_mem {stop toks : List String} {k : Nat} {w : String}
    (h : w ∈ extract_core stop toks k) :
    w ∈ filtered_words stop toks := by
  unfold extract_core at h
  rcases List.mem_map.mp h with ⟨p, hp, rfl⟩
  exact (mem_most_common hp).1

theorem extract_core_nodup (stop toks : List String) (k : Nat) :
    (extract_core stop toks k).Nodup :=
  most_common_nodup_fst _ k

theorem extract_core_pairwise (stop toks : List String) (k : Nat) :
    (extract_core stop toks k).Pairwise
      (fun a b =>
        (filtered_words stop toks).count b < (filtered_words stop toks).count a
        ∨ ((filtered_words stop toks).count a = (filtered_words stop toks).count b
           ∧ firstIdx a (filtered_words stop toks) < firstIdx b (filtered_words stop toks))) := by
  unfold extract_core
  rw [List.pairwise_map]
  refine (most_common_pairwise _ k).imp_of_mem ?_
  intro p q hp hq hpq
  rw [(mem_most_common hp).2, (mem_most_common hq).2] at hpq
  exact hpq

theorem uint32_le_iff {a b : UInt32} : a ≤ b ↔ a.toNat ≤ b.toNat := by
  simp [UInt32.le_def, BitVec.le_def, UInt32.toNat]

theorem toNat_ofNat_valid {n : Nat} (h : n < 0xd800) : (Char.ofNat n).toNat = n := by
  unfold Char.ofNat
  rw [dif_pos (Or.inl h)]
  simp [Char.ofNatAux, Char.toNat, UInt32.toNat, BitVec.toNat_ofNatLt]

theorem toLower_isUpper_false (c : Char) : (Char.toLower c).isUpper = false := by
  unfold Char.toLower
  by_cases h : c.toNat ≥ 65 ∧ c.toNat ≤ 90
  · rw [if_pos h]
    have hv : (Char.ofNat (c.toNat + 32)).toNat = c.toNat + 32 :=
      toNat_ofNat_valid (by omega)
    unfold Char.isUpper
    have hle : ¬((Char.ofNat (c.toNat + 32)).val ≤ 90) := by
      intro hle
      have h90 : ((90 : UInt32)).toNat = 90 := rfl
      have := uint32_le_iff.mp hle
      rw [h90] at this
      have hvv : (Char.ofNat (c.toNat + 32)).val.toNat = c.toNat + 32 := hv
      omega
    simp [hle]
  · rw [if_neg h]
    unfold Char.isUpper
    rcases not_and_or.mp h with h1 | h1
    · have hlt : ¬((65 : UInt32) ≤ c.val) := by
        intro hle
        have := uint32_le_iff.mp hle
        have h65 : ((65 : UInt32)).toNat = 65 := rfl
        rw [h65] at this
        exact h1 this
      simp [hlt]
    · have hlt : ¬(c.val ≤ (90 : UInt32)) := by
        intro hle
        have := uint32_le_iff.mp hle
        have h90 : ((90 : UInt32)).toNat = 90 := rfl
        rw [h90] at this
        exact h1 this
      simp [hlt]

theorem pyLower_noUpper (s : String) : noUpper (pyLower s) = true := by
  unfold noUpper pyLower
  rw [List.all_eq_true]
  intro c hc
  rcases List.mem_map.mp hc with ⟨c', _, rfl⟩
  rw [toLower_isUpper_false]
  rfl

theorem pySplitAux_chars :
    ∀ (l acc : List Char) (t : String), t ∈ pySplitAux l acc →
      ∀ c ∈ t.data, c ∈ l ∨ c ∈ acc := by
  intro l
  induction l with
  | nil =>
    intro acc t ht c hc
    rw [pySplitAux] at ht
    by_cases hacc : acc.isEmpty
    · rw [if_pos hacc] at ht
      simp at ht
    · rw [if_neg hacc] at ht
      rcases List.mem_singleton.mp ht with rfl
      right
      exact List.mem_reverse.mp hc
  | cons c0 cs ih =>
    intro acc t ht c hc
    rw [pySplitAux] at ht
    by_cases hws : c0.isWhitespace
    · rw [if_pos hws] at ht
      by_cases hacc : acc.isEmpty
      · rw [if_pos hacc] at ht
        rcases ih [] t ht c hc with h | h
        · exact Or.inl (List.mem_cons_of_mem _ h)
        · simp at h
      · rw [if_neg hacc] at ht
        rcases List.mem_cons.mp ht with rfl | ht
        · exact Or.inr (List.mem_reverse.mp hc)
        · rcases ih [] t ht c hc with h | h
          · exact Or.inl (List.mem_cons_of_mem _ h)
          · simp at h
    · rw [if_neg hws] at ht
      rcases ih (c0 :: acc) t ht c hc with h | h
      · exact Or.inl (List.mem_cons_of_mem _ h)
      · rcases List.mem_cons.mp h with rfl | h
        · exact Or.inl (List.mem_cons_self _ _)
        · exact Or.inr h

theorem pySplit_noUpper {s : String} (hs : noUpper s = true) :
    ∀ t ∈ pySplit s, noUpper t = true := by
  intro t ht
  unfold noUpper
  rw [List.all_eq_true]
  intro c hc
  rcases pySplitAux_chars s.data [] t ht c hc with h | h
  · unfold noUpper at hs
    rw [List.all_eq_true] at hs
    exact hs c h
  · simp at h

/-- **C1.** For every input text, the classifier returns sentiment
"Positive" iff the computed polarity is > 0, "Negative" iff polarity < 0,
"Neutral" iff polarity == 0; and the returned confidence equals
abs(polarity) and lies in [0,1] (given polarity in [-1,1]). -/
theorem analyze_sentiment_classification (m : ScoreModel) (text : String)
    (h1 : -1 ≤ m.polarity text) (h2 : m.polarity text ≤ 1) :
    ((analyze_sentiment_textblob m text).sentiment = "Positive"
       ↔ 0 < (analyze_sentiment_textblob m text).polarity)
  ∧ ((analyze_sentiment_textblob m text).sentiment = "Negative"
       ↔ (analyze_sentiment_textblob m text).polarity < 0)
  ∧ ((analyze_sentiment_textblob m text).sentiment = "Neutral"
       ↔ (analyze_sentiment_textblob m text).polarity = 0)
  ∧ (analyze_sentiment_textblob m text).confidence
       = |(analyze_sentiment_textblob m text).polarity|
  ∧ 0 ≤ (analyze_sentiment_textblob m text).confidence
  ∧ (analyze_sentiment_textblob m text).confidence ≤ 1 := by
  simp only [analyze_sentiment_textblob]
  rw [pyAbs_eq_abs]
  refine ⟨?_, ?_, ?_, rfl, abs_nonneg _, abs_le.mpr ⟨h1, h2⟩⟩
  · rcases lt_trichotomy (m.polarity text) 0 with h | h | h
    · rw [if_neg (by linarith), if_pos h]
      exact iff_of_false (by decide) (by linarith)
    · rw [if_neg (by simp [h]), if_neg (by simp [h])]
      exact iff_of_false (by decide) (by simp [h])
    · rw [if_pos h]
      exact iff_of_true rfl h
  · rcases lt_trichotomy (m.polarity text) 0 with h | h | h
    · rw [if_neg (by linarith), if_pos h]
      exact iff_of_true rfl h
    · rw [if_neg (by simp [h]), if_neg (by simp [h])]
      exact iff_of_false (by decide) (by simp [h])
    · rw [if_pos h]
      exact iff_of_false (by decide) (by linarith)
  · rcases lt_trichotomy (m.polarity text) 0 with h | h | h
    · rw [if_neg (by linarith), if_pos h]
      exact iff_of_false (by decide) (by linarith)
    · rw [if_neg (by simp [h]), if_neg (by simp [h])]
      exact iff_of_true rfl h
    · rw [if_pos h]
      exact iff_of_false (by decide) (by linarith)

/-- Witness for C1 at a concrete model with polarity 1/2. -/
theorem analyze_sentiment_classification_witness :
    ((analyze_sentiment_textblob halfModel "good").sentiment = "Positive"
       ↔ 0 < (analyze_sentiment_textblob halfModel "good").polarity)
  ∧ ((analyze_sentiment_textblob halfModel "good").sentiment = "Negative"
       ↔ (analyze_sentiment_textblob halfModel "good").polarity < 0)
  ∧ ((analyze_sentiment_textblob halfModel "good").sentiment = "Neutral"
       ↔ (analyze_sentiment_textblob halfModel "good").polarity = 0)
  ∧ (analyze_sentiment_textblob halfModel "good").confidence
       = |(analyze_sentiment_textblob halfModel "good").polarity|
  ∧ 0 ≤ (analyze_sentiment_textblob halfModel "good").confidence
  ∧ (analyze_sentiment_textblob halfModel "good").confidence ≤ 1 :=
  analyze_sentiment_classification halfModel "good"
    (by norm_num [halfModel]) (by norm_num [halfModel])

/-- **C2.** For every text and k, `extract_keywords(text, k)` returns a
sequence of length exactly min(k, number of distinct tokens that are
alphabetic and not stop words after lower-casing and tokenizing); no
returned keyword is a stop word or contains a non-alphabetic character
(in particular the empty sequence when the filtered token set is empty). -/
theorem extract_keywords_length_and_filter (env : NLPEnv) (text : String)
    (k : Nat) (l : List String)
    (h : extract_keywords env text k = .ok l) :
    l.length = min k (filtered_words (stopwordsOf env) (tokensOf env text)).toFinset.card
  ∧ ∀ w ∈ l, pyIsAlpha w = true ∧ w ∉ stopwordsOf env := by
  have hl : l = extract_run env text k := (Except.ok.inj h).symm
  subst hl
  constructor
  · exact extract_core_length _ _ _
  · intro w hw
    have hmem := mem_filtered_words (extract_core_mem hw)
    exact ⟨hmem.2.1, hmem.2.2⟩

/-- Witness for C2 at a concrete text, with both fallbacks active. -/
theorem extract_keywords_length_and_filter_witness :
    pyIsAlpha "cat" = true ∧ "cat" ∉ stopwordsOf envFB :=
  (extract_keywords_length_and_filter envFB "the cat sat on the mat" 2
    ["cat", "sat"] rfl).2 "cat" (by decide)

/-- **C4.** For every text and k, the keywords returned by
`extract_keywords` are ordered by strictly non-increasing frequency of
the filtered tokens, and among keywords with equal frequency the one
whose first occurrence in the filtered token stream is earlier comes
first. -/
theorem extract_keywords_ranking (env : NLPEnv) (text : String) (k : Nat)
    (l : List String) (h : extract_keywords env text k = .ok l) :
    l.Pairwise (fun a b =>
      (filtered_words (stopwordsOf env) (tokensOf env text)).count b
          < (filtered_words (stopwordsOf env) (tokensOf env text)).count a
      ∨ ((filtered_words (stopwordsOf env) (tokensOf env text)).count a
            = (filtered_words (stopwordsOf env) (tokensOf env text)).count b
         ∧ firstIdx a (filtered_words (stopwordsOf env) (tokensOf env text))
             < firstIdx b (filtered_words (stopwordsOf env) (tokensOf env text)))) := by
  have hl : l = extract_run env text k := (Except.ok.inj h).symm
  subst hl
  exact extract_core_pairwise _ _ _

/-- Witness for C4 on the specification's end-to-end example text. -/
theorem extract_keywords_ranking_witness :
    (["cat", "sat"] : List String).Pairwise (fun a b =>
      (filtered_words (stopwordsOf envFB)
          (tokensOf envFB "The cat sat on the mat and the cat slept")).count b
          < (filtered_words (stopwordsOf envFB)
              (tokensOf envFB "The cat sat on the mat and the cat slept")).count a
      ∨ ((filtered_words (stopwordsOf envFB)
            (tokensOf envFB "The cat sat on the mat and the cat slept")).count a
            = (filtered_words (stopwordsOf envFB)
                (tokensOf envFB "The cat sat on the mat and the cat slept")).count b
         ∧ firstIdx a (filtered_words (stopwordsOf envFB)
              (tokensOf envFB "The cat sat on the mat and the cat slept"))
             < firstIdx b (filtered_words (stopwordsOf envFB)
                (tokensOf envFB "The cat sat on the mat and the cat slept")))) :=
  extract_keywords_ranking envFB "The cat sat on the mat and the cat slept" 2
    ["cat", "sat"] rfl

/-- **C8.** `extract_keywords` never surfaces a resource-unavailable
error: it always returns a keyword sequence, and when the stop-word
corpus resp. the tokenizer lookup raises `LookupError` it falls back to
the built-in stop-word list resp. whitespace splitting of the lower-cased
text. -/
theorem extract_keywords_fallback (env : NLPEnv) (text : String) (k : Nat) :
    extract_keywords env text k = .ok (extract_run env text k)
  ∧ (stopwords_words env = .error .lookupError →
       stopwordsOf env = fallback_stop_words)
  ∧ (word_tokenize env (pyLower text) = .error .lookupError →
       tokensOf env text = pySplit (pyLower text)) := by
  refine ⟨rfl, ?_, ?_⟩
  · intro h
    unfold stopwordsOf
    rw [h]
  · intro h
    unfold tokensOf
    rw [h]

/-- Witness for C8 in the environment where both lookups raise. -/
theorem extract_keywords_fallback_witness :
    stopwordsOf envFB = fallback_stop_words
  ∧ tokensOf envFB "the cat" = pySplit (pyLower "the cat") :=
  ⟨(extract_keywords_fallback envFB "the cat" 5).2.1 rfl,
   (extract_keywords_fallback envFB "the cat" 5).2.2 rfl⟩

/-- **C10.** For every text and k, the sequence returned by
`extract_keywords` contains no duplicate keywords, and (provided the
external tokenizer does not introduce upper-case characters into tokens
of a lower-cased input) every returned keyword is entirely lower-case. -/
theorem extract_keywords_nodup_lowercase (env : NLPEnv) (text : String)
    (k : Nat) (l : List String)
    (h : extract_keywords env text k = .ok l)
    (htok : ∀ f, env.tokenizerData = some f →
      ∀ s, noUpper s = true → ∀ t ∈ f s, noUpper t = true) :
    l.Nodup ∧ ∀ w ∈ l, noUpper w = true := by
  have hl : l = extract_run env text k := (Except.ok.inj h).symm
  subst hl
  refine ⟨extract_core_nodup _ _ _, ?_⟩
  intro w hw
  have hmem := (mem_filtered_words (extract_core_mem hw)).1
  cases henv : env.tokenizerData with
  | none =>
    have hmem' : w ∈ pySplit (pyLower text) := by
      unfold tokensOf word_tokenize at hmem
      rw [henv] at hmem
      simpa using hmem
    exact pySplit_noUpper (pyLower_noUpper text) w hmem'
  | some f =>
    have hmem' : w ∈ f (pyLower text) := by
      unfold tokensOf word_tokenize at hmem
      rw [henv] at hmem
      simpa using hmem
    exact htok f henv (pyLower text) (pyLower_noUpper text) w hmem'

/-- Witness for C10 on a text with upper-case letters. -/
theorem extract_keywords_nodup_lowercase_witness :
    (["cat", "sat"] : List String).Nodup ∧ noUpper "cat" = true :=
  ⟨(extract_keywords_nodup_lowercase envFB "The cat sat on the mat" 2
      ["cat", "sat"] rfl (fun _ hf => Option.noConfusion hf)).1,
   (extract_keywords_nodup_lowercase envFB "The cat sat on the mat" 2
      ["cat", "sat"] rfl (fun _ hf => Option.noConfusion hf)).2 "cat" (by decide)⟩

/-- **C3.** For every sequence of input records (with string texts, as
produced by every caller), `batch_analyze_sentiment` returns exactly one
result row per input record, in input order: row i's text equals record
i's text, with no reordering, skipping, or deduplication. -/
theorem batch_preserves_order (m : ScoreModel) (env : NLPEnv)
    (texts : List BatchRecord) (h : ∀ r ∈ texts, isStrB r.text = true) :
    ∃ out, batch_analyze_sentiment m env texts = .ok out
      ∧ out.length = texts.length
      ∧ ∀ (i : Nat) (h1 : i < out.length) (h2 : i < texts.length),
          (out.get ⟨i, h1⟩).lookup "text"
            = some (Cell.str (pyStr (texts.get ⟨i, h2⟩).text)) := by
  induction texts with
  | nil => exact ⟨[], rfl, rfl, fun i h1 h2 => absurd h2 (by simp)⟩
  | cons item rest ih =>
    obtain ⟨out', hok, hlen, hidx⟩ := ih (fun r hr => h r (List.mem_cons_of_mem _ hr))
    have hitem := h item (List.mem_cons_self _ _)
    cases htext : item.text with
    | str s =>
      have hbatch : batch_analyze_sentiment m env (item :: rest)
          = .ok (([("text", Cell.str s),
              ("sentiment", Cell.str (analyze_sentiment_textblob m s).sentiment),
              ("confidence", Cell.rat (analyze_sentiment_textblob m s).confidence),
              ("polarity", Cell.rat (analyze_sentiment_textblob m s).polarity),
              ("subjectivity", Cell.rat (analyze_sentiment_textblob m s).subjectivity),
              ("keywords", Cell.strList (extract_run env s 5)),
              ("source", Cell.str (item.source.getD "N/A")),
              ("date", Cell.str (item.date.getD "N/A"))] : Row) :: out') := by
        simp only [batch_analyze_sentiment, htext, extract_keywords, hok]
      refine ⟨_, hbatch, by simp [hlen], ?_⟩
      intro i h1 h2
      cases i with
      | zero =>
        simp [List.lookup, htext, pyStr]
      | succ j =>
        have h1' : j < out'.length := by simpa using h1
        have h2' : j < rest.length := by simpa using h2
        exact hidx j h1' h2'
    | intv n =>
      rw [htext] at hitem
      exact absurd hitem (by simp [isStrB])
    | nonev =>
      rw [htext] at hitem
      exact absurd hitem (by simp [isStrB])

/-- Witness for C3 on a two-record batch. -/
theorem batch_preserves_order_witness :
    (batch_analyze_sentiment zeroModel envFB
      [⟨PyVal.str "a", none, none⟩, ⟨PyVal.str "b", none, none⟩]).isOk = true := by
  obtain ⟨out, hok, -, -⟩ := batch_preserves_order zeroModel envFB
    [⟨PyVal.str "a", none, none⟩, ⟨PyVal.str "b", none, none⟩] (by decide)
  rw [hok]
  rfl

/-- **C5 counterexample.** `batch_analyze_sentiment` itself performs no
string coercion: a single record whose text is the integer 3 makes the
batch abort with a `TypeError` (raised by `TextBlob(text)` /
`text.lower()` on a non-string). -/
theorem batch_nonstring_aborts :
    batch_analyze_sentiment zeroModel envFB
      [⟨PyVal.intv 3, none, none⟩] = .error .typeError := rfl

/-- **C5 (amended).** The string coercion is applied by the app callers,
not by `batch_analyze_sentiment`: for records whose text has been coerced
with `str(...)` (app.py line 251 / 309), the batch never aborts and every
input record yields an output row. -/
theorem batch_coerced_never_aborts (m : ScoreModel) (env : NLPEnv)
    (texts : List BatchRecord) :
    ∃ out, batch_analyze_sentiment m env (texts.map str_coerce) = .ok out
      ∧ out.length = texts.length := by
  induction texts with
  | nil => exact ⟨[], rfl, rfl⟩
  | cons item rest ih =>
    obtain ⟨out', hok, hlen⟩ := ih
    have hbatch : batch_analyze_sentiment m env ((item :: rest).map str_coerce)
        = .ok (([("text", Cell.str (pyStr item.text)),
            ("sentiment", Cell.str (analyze_sentiment_textblob m (pyStr item.text)).sentiment),
            ("confidence", Cell.rat (analyze_sentiment_textblob m (pyStr item.text)).confidence),
            ("polarity", Cell.rat (analyze_sentiment_textblob m (pyStr item.text)).polarity),
            ("subjectivity", Cell.rat (analyze_sentiment_textblob m (pyStr item.text)).subjectivity),
            ("keywords", Cell.strList (extract_run env (pyStr item.text) 5)),
            ("source", Cell.str (item.source.getD "N/A")),
            ("date", Cell.str (item.date.getD "N/A"))] : Row) :: out') := by
      simp only [List.map_cons, batch_analyze_sentiment, str_coerce,
        extract_keywords, hok]
    exact ⟨_, hbatch, by simp [hlen]⟩

/-- **C7 counterexample.** The orchestrator does not substitute a
positional label for a missing `source`: two records at different
positions both receive the same constant `"N/A"`. -/
theorem batch_source_not_positional :
    (batch_analyze_sentiment zeroModel envFB
        [⟨PyVal.str "a", none, none⟩, ⟨PyVal.str "b", none, none⟩]).map
      (fun out => out.map (fun row => row.lookup "source"))
    = .ok [some (Cell.str "N/A"), some (Cell.str "N/A")] := by decide

/-- **C7 (amended).** For every record, `batch_analyze_sentiment`
substitutes the constant `"N/A"` for a missing `source` and `"N/A"` for a
missing `date` (`text_item.get('source', 'N/A')`, line 72-73); positional
labels are attached by the batch-text caller when it builds the records,
not by the orchestrator. -/
theorem batch_source_date_defaults (m : ScoreModel) (env : NLPEnv)
    (texts : List BatchRecord) (out : List Row)
    (h : batch_analyze_sentiment m env texts = .ok out) :
    out.map (fun row => (row.lookup "source", row.lookup "date"))
      = texts.map (fun r => (some (Cell.str (r.source.getD "N/A")),
                             some (Cell.str (r.date.getD "N/A")))) := by
  induction texts generalizing out with
  | nil =>
    have : out = [] := (Except.ok.inj h).symm
    subst this
    rfl
  | cons item rest ih =>
    cases htext : item.text with
    | str s =>
      simp only [batch_analyze_sentiment, htext, extract_keywords] at h
      cases hrest : batch_analyze_sentiment m env rest with
      | error e =>
        rw [hrest] at h
        exact absurd h (by simp)
      | ok rows =>
        rw [hrest] at h
        have hout := (Except.ok.inj h).symm
        subst hout
        rw [List.map_cons, List.map_cons, ih rows hrest]
        rfl
    | intv n =>
      simp only [batch_analyze_sentiment, htext] at h
      exact absurd h (by simp)
    | nonev =>
      simp only [batch_analyze_sentiment, htext] at h
      exact absurd h (by simp)

/-- Witness for C7's amended claim on a one-record batch omitting both
fields. -/
theorem batch_source_date_defaults_witness :
    ([[("text", Cell.str "a"), ("sentiment", Cell.str "Neutral"),
       ("confidence", Cell.rat 0), ("polarity", Cell.rat 0),
       ("subjectivity", Cell.rat 0), ("keywords", Cell.strList []),
       ("source", Cell.str "N/A"), ("date", Cell.str "N/A")]] : List Row).map
      (fun row => (row.lookup "source", row.lookup "date"))
    = ([⟨PyVal.str "a", none, none⟩] : List BatchRecord).map
        (fun r => (some (Cell.str (r.source.getD "N/A")),
                   some (Cell.str (r.date.getD "N/A")))) :=
  batch_source_date_defaults zeroModel envFB
    [⟨PyVal.str "a", none, none⟩] _ (by decide)

/-- **C9 counterexample.** The table returned by
`batch_analyze_sentiment` has exactly the eight columns text, sentiment,
confidence, polarity, subjectivity, keywords, source, date — there is no
explanation column (the callers add it afterwards, app.py line 204). -/
theorem batch_no_explanation_column :
    (batch_analyze_sentiment zeroModel envFB
        [⟨PyVal.str "hi", none, none⟩]).map
      (fun out => out.map (fun row => row.map Prod.fst))
    = .ok [["text", "sentiment", "confidence", "polarity", "subjectivity",
            "keywords", "source", "date"]]
  ∧ "explanation" ∉ ["text", "sentiment", "confidence", "polarity",
      "subjectivity", "keywords", "source", "date"] := by decide

/-- **C9 (amended).** Every row of the table returned by
`batch_analyze_sentiment` has exactly the columns text, sentiment,
confidence, polarity, subjectivity, keywords, source, date, in that
order; the explanation column is only added later by the app callers. -/
theorem batch_columns (m : ScoreModel) (env : NLPEnv)
    (texts : List BatchRecord) (out : List Row)
    (h : batch_analyze_sentiment m env texts = .ok out) :
    ∀ row ∈ out, row.map Prod.fst
      = ["text", "sentiment", "confidence", "polarity", "subjectivity",
         "keywords", "source", "date"] := by
  induction texts generalizing out with
  | nil =>
    have : out = [] := (Except.ok.inj h).symm
    subst this
    intro row hrow
    simp at hrow
  | cons item rest ih =>
    cases htext : item.text with
    | str s =>
      simp only [batch_analyze_sentiment, htext, extract_keywords] at h
      cases hrest : batch_analyze_sentiment m env rest with
      | error e =>
        rw [hrest] at h
        exact absurd h (by simp)
      | ok rows =>
        rw [hrest] at h
        have hout := (Except.ok.inj h).symm
        subst hout
        intro row hrow
        rcases List.mem_cons.mp hrow with rfl | hrow
        · rfl
        · exact ih rows hrest row hrow
    | intv n =>
      simp only [batch_analyze_sentiment, htext] at h
      exact absurd h (by simp)
    | nonev =>
      simp only [batch_analyze_sentiment, htext] at h
      exact absurd h (by simp)

/-- Witness for C9's amended claim on a concrete one-record batch. -/
theorem batch_columns_witness :
    ([("text", Cell.str "a"), ("sentiment", Cell.str "Neutral"),
      ("confidence", Cell.rat 0), ("polarity", Cell.rat 0),
      ("subjectivity", Cell.rat 0), ("keywords", Cell.strList []),
      ("source", Cell.str "N/A"), ("date", Cell.str "N/A")] : Row).map Prod.fst
    = ["text", "sentiment", "confidence", "polarity", "subjectivity",
       "keywords", "source", "date"] :=
  batch_columns zeroModel envFB [⟨PyVal.str "a", none, none⟩]
    [[("text", Cell.str "a"), ("sentiment", Cell.str "Neutral"),
      ("confidence", Cell.rat 0), ("polarity", Cell.rat 0),
      ("subjectivity", Cell.rat 0), ("keywords", Cell.strList []),
      ("source", Cell.str "N/A"), ("date", Cell.str "N/A")]] (by decide)
    _ (by decide)

/-- **C6 counterexample.** For the empty result collection the
summary-metrics computation returns an empty mapping: it contains no
count, percentage, or average field at all (so it does not return
zero-valued metrics). -/
theorem metrics_empty_no_fields :
    (create_sentiment_metrics_summary []).lookup "total_texts" = none := rfl

/-- **C6 (amended).** For the empty result collection the summary-metrics
computation does not fail (it guards with an early return and performs no
division) and returns the empty mapping, with no metric fields. -/
theorem metrics_empty_returns_empty :
    create_sentiment_metrics_summary [] = [] := rfl
